import Mathlib

/-!
Shallow embedding of the automatic-differentiation module `src/PDE/AutoDeriv.py`
(class `ADVar`, merge routine `_calcDeriv`, free functions `exp`, `log`, `sin`,
`cos`, `aux1`, `aux2`).

Modelling conventions:
  * Python floats are idealised as rationals; the decimal breakpoint literals
    are carried over exactly.
  * The external math library (`math.exp`, `math.log`, `math.sin`, `math.cos`,
    `math.sinh`, `math.cosh`, builtin `pow`) is a parameter `MathLib` of the
    embedding; the only semantic fact recorded about it is that `math.log`
    raises a ValueError exactly on non-positive arguments (CPython behaviour),
    captured by the `Option` result of the `log` field together with
    `log_domain`.
  * Fallible code returns `Except PyErr` / `Option`; `NotImplemented` returns
    of `__pow__` are modelled as `none`.
  * The `while` loop of `_calcDeriv` with its `sys.maxint` sentinel (an
    exhausted cursor compares larger than every live index) is rendered as the
    structural recursion `mergeDeriv` over the two cursor suffixes.
-/

/-- Breakpoint constant `_BP0_AUX1` (AutoDeriv.py line 365). -/
def BP0_AUX1 : ℚ := -8.121635672643270e-3

/-- Breakpoint constant `_BP1_AUX1` (line 366). -/
def BP1_AUX1 : ℚ := 8.121635672643270e-3

/-- Breakpoint constant `_BP0_DAUX1` (line 367). -/
def BP0_DAUX1 : ℚ := -2.710594333272793e-3

/-- Breakpoint constant `_BP1_DAUX1` (line 368). -/
def BP1_DAUX1 : ℚ := 2.710594333272793e-3

/-- Breakpoint constant `_BP2_DAUX1` (line 369). -/
def BP2_DAUX1 : ℚ := -2.918080926071920e2

/-- Breakpoint constant `_BP3_DAUX1` (line 370). -/
def BP3_DAUX1 : ℚ := 2.918080926071920e2

/-- Breakpoint constant `_BP4_DAUX1` (line 371). -/
def BP4_DAUX1 : ℚ := -7.451332191019419e2

/-- Breakpoint constant `_BP5_DAUX1` (line 372). -/
def BP5_DAUX1 : ℚ := 7.451332191019419e2

/-- Breakpoint constant `_BP0_AUX2` (line 373). -/
def BP0_AUX2 : ℚ := -3.673680056967704e1

/-- Breakpoint constant `_BP1_AUX2` (line 374). -/
def BP1_AUX2 : ℚ := 3.680808162809191e1

/-- Breakpoint constant `_BP2_AUX2` (line 375). -/
def BP2_AUX2 : ℚ := 7.451332191019419e2

/-- Breakpoint constant `_BP0_DAUX2` (line 376). -/
def BP0_DAUX2 : ℚ := -7.451332191019419e2

/-- Breakpoint constant `_BP1_DAUX2` (line 377). -/
def BP1_DAUX2 : ℚ := -3.673680056967704e1

/-- Breakpoint constant `_BP2_DAUX2` (line 378). -/
def BP2_DAUX2 : ℚ := 3.680808162809191e1

/-- Breakpoint constant `_BP3_DAUX2` (line 379). -/
def BP3_DAUX2 : ℚ := 7.451332191019419e2

/-- Breakpoint constant `_BP0_MISC` (line 380). -/
def BP0_MISC : ℚ := 7.097827128183643e2

/-- The auto-differentiation variable: numerical value plus the sparse list of
(variable index, partial derivative) pairs (`ADVar.__init__`, lines 79-88). -/
structure ADVar where
  val : ℚ
  deriv : List (ℕ × ℚ)
deriving DecidableEq

/-- The variable indices of a derivative sequence. -/
def keys (l : List (ℕ × ℚ)) : List ℕ := l.map Prod.fst

/-- The invariant claimed by the spec for derivative sequences: indices are
strictly ascending (hence unique). -/
def Ascending (l : List (ℕ × ℚ)) : Prop := List.Pairwise (· < ·) (keys l)

instance (l : List (ℕ × ℚ)) : Decidable (Ascending l) := by
  unfold Ascending; infer_instance

/-- First-match lookup with default 0.0, the loop of `ADVar.getDeriv`
(lines 127-133). -/
def lookupD : List (ℕ × ℚ) → ℕ → ℚ
  | [], _ => 0
  | p :: rest, idx => if p.1 = idx then p.2 else lookupD rest idx

/-- `ADVar.getDeriv(idx)` for a non-negative index (lines 120-133); the
`idx < 0` branch, which returns the whole sequence, is `ADVar.deriv` itself. -/
def ADVar.getDeriv (x : ADVar) (idx : ℕ) : ℚ := lookupD x.deriv idx

/-- `ADVar.__init__(val, idx)` (lines 79-88): seed with a value and an integer
index; a negative index (the default -1) seeds a constant. -/
def ADVar.seed (v : ℚ) (idx : ℤ) : ADVar :=
  ⟨v, if 0 ≤ idx then [(idx.toNat, 1)] else []⟩

/-- The merge loop body of `_calcDeriv` (lines 49-71), recursing on the two
cursor suffixes; an exhausted side takes the role of the `sys.maxint`
sentinel, comparing larger than every remaining live index. -/
def mergeDeriv (av bv : ℚ) (f : ℚ → ℚ → ℚ → ℚ → ℚ) :
    List (ℕ × ℚ) → List (ℕ × ℚ) → List (ℕ × ℚ)
  | [], [] => []
  | a :: as, [] => (a.1, f av bv a.2 0) :: mergeDeriv av bv f as []
  | [], b :: bs => (b.1, f av bv 0 b.2) :: mergeDeriv av bv f [] bs
  | a :: as, b :: bs =>
    if a.1 < b.1 then (a.1, f av bv a.2 0) :: mergeDeriv av bv f as (b :: bs)
    else if b.1 < a.1 then (b.1, f av bv 0 b.2) :: mergeDeriv av bv f (a :: as) bs
    else (a.1, f av bv a.2 b.2) :: mergeDeriv av bv f as bs
termination_by A B => A.length + B.length

/-- `_calcDeriv(a, b, func)` (lines 36-73) applied to two `ADVar` arguments. -/
def calcDeriv (a b : ADVar) (f : ℚ → ℚ → ℚ → ℚ → ℚ) : List (ℕ × ℚ) :=
  mergeDeriv a.val b.val f a.deriv b.deriv

/-- `ADVar.__add__` with an `ADVar` operand (lines 177-179). -/
def ADVar.add (a b : ADVar) : ADVar :=
  ⟨a.val + b.val, calcDeriv a b fun _ _ dx dy => dx + dy⟩

/-- `ADVar.__add__` with a scalar operand (lines 171-175): the derivative
sequence is reused unchanged. -/
def ADVar.addScalar (a : ADVar) (c : ℚ) : ADVar := ⟨a.val + c, a.deriv⟩

/-- `ADVar.__radd__` (lines 181-187). -/
def ADVar.raddScalar (a : ADVar) (c : ℚ) : ADVar := ⟨c + a.val, a.deriv⟩

/-- `ADVar.__sub__` with an `ADVar` operand (lines 198-200). -/
def ADVar.sub (a b : ADVar) : ADVar :=
  ⟨a.val - b.val, calcDeriv a b fun _ _ dx dy => dx - dy⟩

/-- `ADVar.__sub__` with a scalar operand (lines 192-196). -/
def ADVar.subScalar (a : ADVar) (c : ℚ) : ADVar := ⟨a.val - c, a.deriv⟩

/-- `ADVar.__rsub__` (lines 202-209): negate every entry. -/
def ADVar.rsubScalar (a : ADVar) (c : ℚ) : ADVar :=
  ⟨c - a.val, a.deriv.map fun p => (p.1, -p.2)⟩

/-- `ADVar.__mul__` with an `ADVar` operand (lines 221-223). -/
def ADVar.mul (a b : ADVar) : ADVar :=
  ⟨a.val * b.val, calcDeriv a b fun x y dx dy => y * dx + x * dy⟩

/-- `ADVar.__mul__` with a scalar operand (lines 214-219). -/
def ADVar.mulScalar (a : ADVar) (c : ℚ) : ADVar :=
  ⟨a.val * c, a.deriv.map fun p => (p.1, p.2 * c)⟩

/-- `ADVar.__rmul__` (lines 225-232). -/
def ADVar.rmulScalar (a : ADVar) (c : ℚ) : ADVar :=
  ⟨c * a.val, a.deriv.map fun p => (p.1, c * p.2)⟩

/-- `ADVar.__div__` with an `ADVar` operand (lines 244-246). -/
def ADVar.div (a b : ADVar) : ADVar :=
  ⟨a.val / b.val, calcDeriv a b fun x y dx dy => (y * dx - x * dy) / (y * y)⟩

/-- `ADVar.__div__` with a scalar operand (lines 237-242). -/
def ADVar.divScalar (a : ADVar) (c : ℚ) : ADVar :=
  ⟨a.val / c, a.deriv.map fun p => (p.1, p.2 / c)⟩

/-- `ADVar.__rdiv__` (lines 248-255). -/
def ADVar.rdivScalar (a : ADVar) (c : ℚ) : ADVar :=
  ⟨c / a.val, a.deriv.map fun p => (p.1, -c * p.2 / (a.val * a.val))⟩

/-- `ADVar.__pos__` (lines 297-301). -/
def ADVar.posAD (a : ADVar) : ADVar := ⟨a.val, a.deriv⟩

/-- `ADVar.__neg__` (lines 303-308). -/
def ADVar.negAD (a : ADVar) : ADVar :=
  ⟨-a.val, a.deriv.map fun p => (p.1, -p.2)⟩

/-- The sign computation used twice inside `ADVar.__abs__`
(lines 277-281 and 287-292). -/
def signQ (x : ℚ) : ℚ := if 0 < x then 1 else if x < 0 then -1 else 0

/-- `ADVar.__abs__` (lines 273-295). -/
def ADVar.absAD (a : ADVar) : ADVar :=
  ⟨|a.val|,
    if signQ a.val ≠ 0 then a.deriv.map fun p => (p.1, signQ a.val * p.2)
    else a.deriv.map fun p => (p.1, signQ p.2 * p.2)⟩

/-- `ADVar.derivApproxEq` (lines 151-166). The `tol` parameter (default 1e-6)
is accepted but the threshold actually used is `max |a.val| |b.val|`. -/
def ADVar.derivApproxEq (a b : ADVar) (tol : ℚ) : Bool :=
  if ¬ |a.val - b.val| < max |a.val| |b.val| then false
  else (a.sub b).deriv.all fun p => |p.2| < max |a.val| |b.val|

/-- The Python exceptions that the embedded code can raise. -/
inductive PyErr where
  | valueError
  | arithmeticError
deriving DecidableEq

/-- The external real-valued math library consumed by the module (spec section 6):
`math.exp`, `math.log`, `math.sin`, `math.cos`, `math.sinh`, `math.cosh` and the
builtin `pow`. `log` returns `none` exactly on non-positive input, which models
the ValueError that CPython `math.log` raises there. -/
structure MathLib where
  exp : ℚ → ℚ
  sin : ℚ → ℚ
  cos : ℚ → ℚ
  sinh : ℚ → ℚ
  cosh : ℚ → ℚ
  pow : ℚ → ℚ → ℚ
  log : ℚ → Option ℚ
  log_domain : ∀ x : ℚ, (log x).isSome ↔ 0 < x

/-- A concrete instantiation of the math-library parameter, used to evaluate the
embedding at concrete inputs. -/
def mathLib0 : MathLib where
  exp := fun _ => 1
  sin := fun _ => 0
  cos := fun _ => 1
  sinh := fun q => q + 1
  cosh := fun _ => 3
  pow := fun a _ => a
  log := fun q => if 0 < q then some 1 else none
  log_domain := by
    intro x
    by_cases h : 0 < x <;> simp [h]

/-- Exponent argument of `ADVar.__pow__`: the runtime type test on `other`
(line 263) becomes a sum type. -/
inductive PowExp where
  | scalar (c : ℚ)
  | quantity (b : ADVar)

/-- `ADVar.__pow__` (lines 257-271, with the default `modulo == 0`): a scalar
exponent scales every entry by `other * pow(self.val, other - 1.0)`; an `ADVar`
exponent returns `NotImplemented`, modelled as `none`. -/
def ADVar.powAD (m : MathLib) (a : ADVar) : PowExp → Option ADVar
  | .scalar c =>
      some ⟨m.pow a.val c, a.deriv.map fun p => (p.1, c * m.pow a.val (c - 1) * p.2)⟩
  | .quantity _ => none

/-- Free function `exp` on an `ADVar` (lines 311-321): `math.exp(x)` reads
`x.val` through `ADVar.__float__`. -/
def expAD (m : MathLib) (x : ADVar) : ADVar :=
  ⟨m.exp x.val, x.deriv.map fun p => (p.1, m.exp x.val * p.2)⟩

/-- The entry loop of free function `log` (lines 331-335): per entry, append
`dx / x.val` when `x.val > 0 or x.val == 0 and dx >= 0`, otherwise raise
`ArithmeticError`. -/
def logLoop (xval : ℚ) : List (ℕ × ℚ) → Except PyErr (List (ℕ × ℚ))
  | [] => .ok []
  | p :: rest =>
      if 0 < xval ∨ (xval = 0 ∧ 0 ≤ p.2) then
        match logLoop xval rest with
        | .ok es => .ok ((p.1, p.2 / xval) :: es)
        | .error e => .error e
      else .error .arithmeticError

/-- Free function `log` on an `ADVar` (lines 323-336): `r.val = math.log(x)` is
evaluated first and raises ValueError on a non-positive value; only then does
the entry loop run. -/
def logAD (m : MathLib) (x : ADVar) : Except PyErr ADVar :=
  match m.log x.val with
  | none => .error .valueError
  | some v =>
      match logLoop x.val x.deriv with
      | .ok es => .ok ⟨v, es⟩
      | .error e => .error e

/-- Free function `sin` on a plain scalar (lines 340-341). -/
def sinScalar (m : MathLib) (s : ℚ) : ℚ := m.sin s

/-- Free function `sin` on an `ADVar` (lines 343-349). -/
def sinAD (m : MathLib) (x : ADVar) : ADVar :=
  ⟨m.sin x.val, x.deriv.map fun p => (p.1, m.cos x.val * p.2)⟩

/-- Free function `cos` on a plain scalar: line 354 of the source literally
reads `return math.sin(x)`. -/
def cosScalar (m : MathLib) (s : ℚ) : ℚ := m.sin s

/-- Free function `cos` on an `ADVar` (lines 356-362). -/
def cosAD (m : MathLib) (x : ADVar) : ADVar :=
  ⟨m.cos x.val, x.deriv.map fun p => (p.1, -m.sin x.val * p.2)⟩

/-- The clamp of the input value to `[-_BP0_MISC, _BP0_MISC]` performed by
`aux1` (lines 401-404); the comparisons read the value of an `ADVar` argument
through `ADVar.__cmp__`. -/
def clampMisc (v : ℚ) : ℚ :=
  if v < -BP0_MISC then -BP0_MISC else if v > BP0_MISC then BP0_MISC else v

/-- The value branches of `aux1` (lines 406-411), on the clamped value. -/
def aux1Val (m : MathLib) (y : ℚ) : ℚ :=
  if y ≤ BP0_AUX1 then y / m.sinh y
  else if y ≤ BP1_AUX1 then 1 - y * y / 6 * (1 - 7 * y * y / 60)
  else y / m.sinh y

/-- Free function `aux1` on a plain scalar (lines 396-414). -/
def aux1Scalar (m : MathLib) (x : ℚ) : ℚ := aux1Val m (clampMisc x)

/-- The derivative-coefficient branches of `aux1` (lines 419-434), on the
clamped value `y` and the already-computed function value `z`; the branch for
`_BP1_DAUX1 < y <= _BP3_DAUX1` (lines 428-430) divides by `z * z` and also
uses `z` in the numerator, leaving its local `tmp = sinh(y)` unused. -/
def aux1PD (m : MathLib) (y z : ℚ) : ℚ :=
  if y ≤ BP4_DAUX1 then 0
  else if y ≤ BP2_DAUX1 then -(1 + y) * m.exp y
  else if y ≤ BP0_DAUX1 then (m.sinh y - y * m.cosh y) / (m.sinh y * m.sinh y)
  else if y ≤ BP1_DAUX1 then -y / 3 * (1 - 7 * y * y / 30)
  else if y ≤ BP3_DAUX1 then (z - y * m.cosh y) / (z * z)
  else if y ≤ BP5_DAUX1 then (1 - y) * m.exp (-y)
  else 0

/-- Free function `aux1` on an `ADVar` (lines 396-439). -/
def aux1AD (m : MathLib) (x : ADVar) : ADVar :=
  ⟨aux1Val m (clampMisc x.val),
    x.deriv.map fun p =>
      (p.1, aux1PD m (clampMisc x.val) (aux1Val m (clampMisc x.val)) * p.2)⟩

/-- The value branches of `aux2` (lines 459-466); the third comparison in the
source reads `x <= _BP2_AUX2`, which for an `ADVar` argument compares `x.val`
through `ADVar.__cmp__`, the same quantity as `y`. -/
def aux2Val (m : MathLib) (y : ℚ) : ℚ :=
  if y ≤ BP0_AUX2 then 1
  else if y ≤ BP1_AUX2 then 1 / (1 + m.exp y)
  else if y ≤ BP2_AUX2 then m.exp (-y)
  else 0

/-- Free function `aux2` on a plain scalar (lines 454-469). -/
def aux2Scalar (m : MathLib) (x : ℚ) : ℚ := aux2Val m x

/-- The derivative-coefficient branches of `aux2` (lines 473-484). -/
def aux2PD (m : MathLib) (y : ℚ) : ℚ :=
  if y ≤ BP0_DAUX2 then 0
  else if y ≤ BP1_DAUX2 then -m.exp y
  else if y ≤ BP2_DAUX2 then -m.exp y / ((m.exp y + 1) * (m.exp y + 1))
  else if y ≤ BP3_DAUX2 then -m.exp (-y)
  else 0

/-- Free function `aux2` on an `ADVar` (lines 454-489). -/
def aux2AD (m : MathLib) (x : ADVar) : ADVar :=
  ⟨aux2Val m x.val, x.deriv.map fun p => (p.1, aux2PD m x.val * p.2)⟩

/-- The quantities reachable through the public interface: seeded variables and
constants, results of the arithmetic operators with quantity or scalar operands
on either side, `abs`, unary plus and minus, `pow` with a scalar exponent, and
the free functions `exp`, `log` (when it succeeds), `sin`, `cos`, `aux1`,
`aux2`. -/
inductive Reachable : ADVar → Prop where
  | seed (v : ℚ) (idx : ℤ) : Reachable (ADVar.seed v idx)
  | add {a b : ADVar} : Reachable a → Reachable b → Reachable (a.add b)
  | addScalar {a : ADVar} (c : ℚ) : Reachable a → Reachable (a.addScalar c)
  | raddScalar {a : ADVar} (c : ℚ) : Reachable a → Reachable (a.raddScalar c)
  | sub {a b : ADVar} : Reachable a → Reachable b → Reachable (a.sub b)
  | subScalar {a : ADVar} (c : ℚ) : Reachable a → Reachable (a.subScalar c)
  | rsubScalar {a : ADVar} (c : ℚ) : Reachable a → Reachable (a.rsubScalar c)
  | mul {a b : ADVar} : Reachable a → Reachable b → Reachable (a.mul b)
  | mulScalar {a : ADVar} (c : ℚ) : Reachable a → Reachable (a.mulScalar c)
  | rmulScalar {a : ADVar} (c : ℚ) : Reachable a → Reachable (a.rmulScalar c)
  | div {a b : ADVar} : Reachable a → Reachable b → Reachable (a.div b)
  | divScalar {a : ADVar} (c : ℚ) : Reachable a → Reachable (a.divScalar c)
  | rdivScalar {a : ADVar} (c : ℚ) : Reachable a → Reachable (a.rdivScalar c)
  | posAD {a : ADVar} : Reachable a → Reachable a.posAD
  | negAD {a : ADVar} : Reachable a → Reachable a.negAD
  | absAD {a : ADVar} : Reachable a → Reachable a.absAD
  | powScalar {a r : ADVar} (m : MathLib) (c : ℚ) :
      Reachable a → a.powAD m (.scalar c) = some r → Reachable r
  | expAD {x : ADVar} (m : MathLib) : Reachable x → Reachable (expAD m x)
  | logAD {x r : ADVar} (m : MathLib) :
      Reachable x → logAD m x = .ok r → Reachable r
  | sinAD {x : ADVar} (m : MathLib) : Reachable x → Reachable (sinAD m x)
  | cosAD {x : ADVar} (m : MathLib) : Reachable x → Reachable (cosAD m x)
  | aux1AD {x : ADVar} (m : MathLib) : Reachable x → Reachable (aux1AD m x)
  | aux2AD {x : ADVar} (m : MathLib) : Reachable x → Reachable (aux2AD m x)

theorem mergeDeriv_nil_nil (av bv : ℚ) (f : ℚ → ℚ → ℚ → ℚ → ℚ) :
    mergeDeriv av bv f [] [] = [] := by
  simp [mergeDeriv]

theorem mergeDeriv_cons_nil (av bv : ℚ) (f : ℚ → ℚ → ℚ → ℚ → ℚ)
    (a : ℕ × ℚ) (as : List (ℕ × ℚ)) :
    mergeDeriv av bv f (a :: as) [] = (a.1, f av bv a.2 0) :: mergeDeriv av bv f as [] := by
  simp [mergeDeriv]

theorem mergeDeriv_nil_cons (av bv : ℚ) (f : ℚ → ℚ → ℚ → ℚ → ℚ)
    (b : ℕ × ℚ) (bs : List (ℕ × ℚ)) :
    mergeDeriv av bv f [] (b :: bs) = (b.1, f av bv 0 b.2) :: mergeDeriv av bv f [] bs := by
  simp [mergeDeriv]

theorem mergeDeriv_cons_cons (av bv : ℚ) (f : ℚ → ℚ → ℚ → ℚ → ℚ)
    (a : ℕ × ℚ) (as : List (ℕ × ℚ)) (b : ℕ × ℚ) (bs : List (ℕ × ℚ)) :
    mergeDeriv av bv f (a :: as) (b :: bs) =
      if a.1 < b.1 then (a.1, f av bv a.2 0) :: mergeDeriv av bv f as (b :: bs)
      else if b.1 < a.1 then (b.1, f av bv 0 b.2) :: mergeDeriv av bv f (a :: as) bs
      else (a.1, f av bv a.2 b.2) :: mergeDeriv av bv f as bs := by
  rw [mergeDeriv]

theorem mem_keys_mergeDeriv (av bv : ℚ) (f : ℚ → ℚ → ℚ → ℚ → ℚ)
    (A B : List (ℕ × ℚ)) (i : ℕ) :
    i ∈ keys (mergeDeriv av bv f A B) ↔ i ∈ keys A ∨ i ∈ keys B := by
  induction A, B using mergeDeriv.induct av bv f with
  | case1 => simp [mergeDeriv_nil_nil, keys]
  | case2 a as ih =>
      simp only [mergeDeriv_cons_nil, keys, List.map_cons, List.mem_cons] at ih ⊢
      tauto
  | case3 b bs ih =>
      simp only [mergeDeriv_nil_cons, keys, List.map_cons, List.mem_cons] at ih ⊢
      tauto
  | case4 a as b bs hlt ih =>
      simp only [mergeDeriv_cons_cons, if_pos hlt, keys, List.map_cons, List.mem_cons] at ih ⊢
      tauto
  | case5 a as b bs hlt hgt ih =>
      simp only [mergeDeriv_cons_cons, if_neg hlt, if_pos hgt, keys, List.map_cons,
        List.mem_cons] at ih ⊢
      tauto
  | case6 a as b bs hlt hgt ih =>
      simp only [mergeDeriv_cons_cons, if_neg hlt, if_neg hgt, keys, List.map_cons,
        List.mem_cons] at ih ⊢
      have hab : a.1 = b.1 := Nat.le_antisymm (Nat.not_lt.mp hgt) (Nat.not_lt.mp hlt)
      rw [hab]
      tauto

theorem ascending_cons {p : ℕ × ℚ} {rest : List (ℕ × ℚ)} :
    Ascending (p :: rest) ↔ (∀ k ∈ keys rest, p.1 < k) ∧ Ascending rest := by
  simp [Ascending, keys, List.pairwise_cons]

theorem le_of_mem_keys_ascending {p : ℕ × ℚ} {rest : List (ℕ × ℚ)}
    (h : Ascending (p :: rest)) {k : ℕ} (hk : k ∈ keys (p :: rest)) : p.1 ≤ k := by
  have hk2 : k = p.1 ∨ k ∈ keys rest := by simpa [keys] using hk
  rcases hk2 with rfl | hk2
  · exact le_refl _
  · exact le_of_lt ((ascending_cons.mp h).1 k hk2)

theorem not_mem_keys_of_lt_head {p : ℕ × ℚ} {rest : List (ℕ × ℚ)}
    (h : Ascending (p :: rest)) {k : ℕ} (hk : k < p.1) : k ∉ keys (p :: rest) := by
  intro hmem
  exact absurd (le_of_mem_keys_ascending h hmem) (Nat.not_le.mpr hk)

theorem lookupD_eq_zero : ∀ {l : List (ℕ × ℚ)} {i : ℕ}, i ∉ keys l → lookupD l i = 0 := by
  intro l
  induction l with
  | nil => intro i _; rfl
  | cons p rest ih =>
      intro i hm
      simp only [keys, List.map_cons, List.mem_cons] at hm
      push_neg at hm
      have hne : ¬ p.1 = i := fun h => hm.1 h.symm
      show (if p.1 = i then p.2 else lookupD rest i) = 0
      rw [if_neg hne]
      exact ih (by simpa [keys] using hm.2)

theorem ascending_mergeDeriv (av bv : ℚ) (f : ℚ → ℚ → ℚ → ℚ → ℚ)
    (A B : List (ℕ × ℚ)) :
    Ascending A → Ascending B → Ascending (mergeDeriv av bv f A B) := by
  induction A, B using mergeDeriv.induct av bv f with
  | case1 => intro _ _; simp [mergeDeriv_nil_nil, Ascending, keys]
  | case2 a as ih =>
      intro hA hB
      rw [mergeDeriv_cons_nil]
      rcases ascending_cons.mp hA with ⟨hhd, htl⟩
      refine ascending_cons.mpr ⟨?_, ih htl hB⟩
      intro k hk
      rcases (mem_keys_mergeDeriv av bv f as [] k).mp hk with h | h
      · exact hhd k h
      · simp [keys] at h
  | case3 b bs ih =>
      intro hA hB
      rw [mergeDeriv_nil_cons]
      rcases ascending_cons.mp hB with ⟨hhd, htl⟩
      refine ascending_cons.mpr ⟨?_, ih hA htl⟩
      intro k hk
      rcases (mem_keys_mergeDeriv av bv f [] bs k).mp hk with h | h
      · simp [keys] at h
      · exact hhd k h
  | case4 a as b bs hlt ih =>
      intro hA hB
      rw [mergeDeriv_cons_cons, if_pos hlt]
      rcases ascending_cons.mp hA with ⟨hhd, htl⟩
      refine ascending_cons.mpr ⟨?_, ih htl hB⟩
      intro k hk
      rcases (mem_keys_mergeDeriv av bv f as (b :: bs) k).mp hk with h | h
      · exact hhd k h
      · exact lt_of_lt_of_le hlt (le_of_mem_keys_ascending hB h)
  | case5 a as b bs hlt hgt ih =>
      intro hA hB
      rw [mergeDeriv_cons_cons, if_neg hlt, if_pos hgt]
      rcases ascending_cons.mp hB with ⟨hhd, htl⟩
      refine ascending_cons.mpr ⟨?_, ih hA htl⟩
      intro k hk
      rcases (mem_keys_mergeDeriv av bv f (a :: as) bs k).mp hk with h | h
      · exact lt_of_lt_of_le hgt (le_of_mem_keys_ascending hA h)
      · exact hhd k h
  | case6 a as b bs hlt hgt ih =>
      intro hA hB
      rw [mergeDeriv_cons_cons, if_neg hlt, if_neg hgt]
      have hab : a.1 = b.1 := Nat.le_antisymm (Nat.not_lt.mp hgt) (Nat.not_lt.mp hlt)
      rcases ascending_cons.mp hA with ⟨hhdA, htlA⟩
      rcases ascending_cons.mp hB with ⟨hhdB, htlB⟩
      refine ascending_cons.mpr ⟨?_, ih htlA htlB⟩
      intro k hk
      rcases (mem_keys_mergeDeriv av bv f as bs k).mp hk with h | h
      · exact hhdA k h
      · rw [hab]; exact hhdB k h

theorem lookupD_cons (p : ℕ × ℚ) (rest : List (ℕ × ℚ)) (i : ℕ) :
    lookupD (p :: rest) i = if p.1 = i then p.2 else lookupD rest i := rfl

theorem lookupD_mergeDeriv (av bv : ℚ) (f : ℚ → ℚ → ℚ → ℚ → ℚ)
    (A B : List (ℕ × ℚ)) :
    Ascending A → Ascending B → ∀ i : ℕ, i ∈ keys A ∨ i ∈ keys B →
    lookupD (mergeDeriv av bv f A B) i = f av bv (lookupD A i) (lookupD B i) := by
  induction A, B using mergeDeriv.induct av bv f with
  | case1 =>
      intro _ _ i hi
      simp [keys] at hi
  | case2 a as ih =>
      intro hA hB i hi
      rw [mergeDeriv_cons_nil, lookupD_cons]
      by_cases hia : a.1 = i
      · rw [if_pos hia,
          show lookupD (a :: as) i = a.2 from by rw [lookupD_cons, if_pos hia]]
        rfl
      · rw [if_neg hia,
          show lookupD (a :: as) i = lookupD as i from by rw [lookupD_cons, if_neg hia]]
        have hi2 : i ∈ keys as ∨ i ∈ keys ([] : List (ℕ × ℚ)) := by
          rcases hi with h | h
          · simp only [keys, List.map_cons, List.mem_cons] at h
            rcases h with rfl | h
            · exact absurd rfl hia
            · exact Or.inl h
          · exact Or.inr h
        exact ih (ascending_cons.mp hA).2 hB i hi2
  | case3 b bs ih =>
      intro hA hB i hi
      rw [mergeDeriv_nil_cons, lookupD_cons]
      by_cases hib : b.1 = i
      · rw [if_pos hib,
          show lookupD (b :: bs) i = b.2 from by rw [lookupD_cons, if_pos hib]]
        rfl
      · rw [if_neg hib,
          show lookupD (b :: bs) i = lookupD bs i from by rw [lookupD_cons, if_neg hib]]
        have hi2 : i ∈ keys ([] : List (ℕ × ℚ)) ∨ i ∈ keys bs := by
          rcases hi with h | h
          · exact Or.inl h
          · simp only [keys, List.map_cons, List.mem_cons] at h
            rcases h with rfl | h
            · exact absurd rfl hib
            · exact Or.inr h
        exact ih hA (ascending_cons.mp hB).2 i hi2
  | case4 a as b bs hlt ih =>
      intro hA hB i hi
      rw [mergeDeriv_cons_cons, if_pos hlt, lookupD_cons]
      by_cases hia : a.1 = i
      · have hiB : i ∉ keys (b :: bs) :=
          not_mem_keys_of_lt_head hB (by rw [← hia]; exact hlt)
        rw [if_pos hia, lookupD_eq_zero hiB,
          show lookupD (a :: as) i = a.2 from by rw [lookupD_cons, if_pos hia]]
      · rw [if_neg hia,
          show lookupD (a :: as) i = lookupD as i from by rw [lookupD_cons, if_neg hia]]
        have hi2 : i ∈ keys as ∨ i ∈ keys (b :: bs) := by
          rcases hi with h | h
          · simp only [keys, List.map_cons, List.mem_cons] at h
            rcases h with rfl | h
            · exact absurd rfl hia
            · exact Or.inl h
          · exact Or.inr h
        exact ih (ascending_cons.mp hA).2 hB i hi2
  | case5 a as b bs hlt hgt ih =>
      intro hA hB i hi
      rw [mergeDeriv_cons_cons, if_neg hlt, if_pos hgt, lookupD_cons]
      by_cases hib : b.1 = i
      · have hiA : i ∉ keys (a :: as) :=
          not_mem_keys_of_lt_head hA (by rw [← hib]; exact hgt)
        rw [if_pos hib, lookupD_eq_zero hiA,
          show lookupD (b :: bs) i = b.2 from by rw [lookupD_cons, if_pos hib]]
      · rw [if_neg hib,
          show lookupD (b :: bs) i = lookupD bs i from by rw [lookupD_cons, if_neg hib]]
        have hi2 : i ∈ keys (a :: as) ∨ i ∈ keys bs := by
          rcases hi with h | h
          · exact Or.inl h
          · simp only [keys, List.map_cons, List.mem_cons] at h
            rcases h with rfl | h
            · exact absurd rfl hib
            · exact Or.inr h
        exact ih hA (ascending_cons.mp hB).2 i hi2
  | case6 a as b bs hlt hgt ih =>
      intro hA hB i hi
      have hab : a.1 = b.1 := Nat.le_antisymm (Nat.not_lt.mp hgt) (Nat.not_lt.mp hlt)
      rw [mergeDeriv_cons_cons, if_neg hlt, if_neg hgt, lookupD_cons]
      by_cases hia : a.1 = i
      · rw [if_pos hia,
          show lookupD (a :: as) i = a.2 from by rw [lookupD_cons, if_pos hia],
          show lookupD (b :: bs) i = b.2 from by
            rw [lookupD_cons, if_pos (hab.symm.trans hia)]]
      · rw [if_neg hia,
          show lookupD (a :: as) i = lookupD as i from by rw [lookupD_cons, if_neg hia],
          show lookupD (b :: bs) i = lookupD bs i from by
            rw [lookupD_cons, if_neg (fun h => hia (hab.trans h))]]
        have hi2 : i ∈ keys as ∨ i ∈ keys bs := by
          rcases hi with h | h
          · simp only [keys, List.map_cons, List.mem_cons] at h
            rcases h with rfl | h
            · exact absurd rfl hia
            · exact Or.inl h
          · simp only [keys, List.map_cons, List.mem_cons] at h
            rcases h with rfl | h
            · exact absurd hab hia
            · exact Or.inr h
        exact ih (ascending_cons.mp hA).2 (ascending_cons.mp hB).2 i hi2

theorem lookupD_mergeDeriv_total (av bv : ℚ) (f : ℚ → ℚ → ℚ → ℚ → ℚ)
    (A B : List (ℕ × ℚ)) (hA : Ascending A) (hB : Ascending B)
    (hf0 : f av bv 0 0 = 0) (i : ℕ) :
    lookupD (mergeDeriv av bv f A B) i = f av bv (lookupD A i) (lookupD B i) := by
  by_cases hi : i ∈ keys A ∨ i ∈ keys B
  · exact lookupD_mergeDeriv av bv f A B hA hB i hi
  · push_neg at hi
    have hm : i ∉ keys (mergeDeriv av bv f A B) := by
      intro hm
      rcases (mem_keys_mergeDeriv av bv f A B i).mp hm with h | h
      · exact hi.1 h
      · exact hi.2 h
    rw [lookupD_eq_zero hi.1, lookupD_eq_zero hi.2, lookupD_eq_zero hm, hf0]

theorem keys_map_snd (g : ℕ → ℚ → ℚ) (l : List (ℕ × ℚ)) :
    keys (l.map fun p => (p.1, g p.1 p.2)) = keys l := by
  induction l with
  | nil => rfl
  | cons p rest ih => simp only [keys, List.map_cons] at ih ⊢; rw [ih]

theorem ascending_map (g : ℕ → ℚ → ℚ) {l : List (ℕ × ℚ)} (h : Ascending l) :
    Ascending (l.map fun p => (p.1, g p.1 p.2)) := by
  unfold Ascending
  rw [keys_map_snd]
  exact h

theorem keys_logLoop {xval : ℚ} :
    ∀ {l es : List (ℕ × ℚ)}, logLoop xval l = .ok es → keys es = keys l := by
  intro l
  induction l with
  | nil =>
      intro es h
      simp only [logLoop] at h
      cases h
      rfl
  | cons p rest ih =>
      intro es h
      simp only [logLoop] at h
      split at h
      · cases hrec : logLoop xval rest with
        | ok es2 =>
            rw [hrec] at h
            cases h
            have h2 := ih hrec
            simp only [keys, List.map_cons] at h2 ⊢
            rw [h2]
        | error e => rw [hrec] at h; cases h
      · cases h

theorem logLoop_pos {xval : ℚ} (hx : 0 < xval) (l : List (ℕ × ℚ)) :
    logLoop xval l = .ok (l.map fun p => (p.1, p.2 / xval)) := by
  induction l with
  | nil => rfl
  | cons p rest ih => simp [logLoop, hx, ih]

theorem wf_of_reachable {x : ADVar} (h : Reachable x) : Ascending x.deriv := by
  induction h with
  | seed v idx =>
      show Ascending (if 0 ≤ idx then [(idx.toNat, 1)] else [])
      split <;> simp [Ascending, keys]
  | add ha hb iha ihb => exact ascending_mergeDeriv _ _ _ _ _ iha ihb
  | addScalar c ha iha => exact iha
  | raddScalar c ha iha => exact iha
  | sub ha hb iha ihb => exact ascending_mergeDeriv _ _ _ _ _ iha ihb
  | subScalar c ha iha => exact iha
  | rsubScalar c ha iha => exact ascending_map (fun _ d => -d) iha
  | mul ha hb iha ihb => exact ascending_mergeDeriv _ _ _ _ _ iha ihb
  | mulScalar c ha iha => exact ascending_map (fun _ d => d * c) iha
  | rmulScalar c ha iha => exact ascending_map (fun _ d => c * d) iha
  | div ha hb iha ihb => exact ascending_mergeDeriv _ _ _ _ _ iha ihb
  | divScalar c ha iha => exact ascending_map (fun _ d => d / c) iha
  | rdivScalar c ha iha => exact ascending_map (fun _ d => -c * d / _) iha
  | posAD ha iha => exact iha
  | negAD ha iha => exact ascending_map (fun _ d => -d) iha
  | absAD ha iha =>
      show Ascending (ADVar.absAD _).deriv
      unfold ADVar.absAD
      split
      · exact ascending_map (fun _ d => signQ _ * d) iha
      · exact ascending_map (fun _ d => signQ d * d) iha
  | powScalar m c ha heq iha =>
      simp only [ADVar.powAD, Option.some_inj] at heq
      rw [← heq]
      exact ascending_map (fun _ d => c * m.pow _ (c - 1) * d) iha
  | expAD m hx ihx => exact ascending_map (fun _ d => _ * d) ihx
  | logAD m hx heq ihx =>
      rename_i xq r
      unfold logAD at heq
      rcases hlog : MathLib.log m xq.val with _ | v
      · rw [hlog] at heq; cases heq
      · rw [hlog] at heq
        rcases hloop : logLoop xq.val xq.deriv with e | es
        · rw [hloop] at heq; cases heq
        · rw [hloop] at heq
          cases heq
          show Ascending es
          unfold Ascending
          rw [keys_logLoop hloop]
          exact ihx
  | sinAD m hx ihx => exact ascending_map (fun _ d => _ * d) ihx
  | cosAD m hx ihx => exact ascending_map (fun _ d => _ * d) ihx
  | aux1AD m hx ihx => exact ascending_map (fun _ d => _ * d) ihx
  | aux2AD m hx ihx => exact ascending_map (fun _ d => _ * d) ihx

/-- C1: for operands whose derivative sequences are strictly ascending with
unique indices, the merge routine `_calcDeriv` returns the ascending,
unique-index sequence covering exactly the union of the indices present in
either operand; an index present only in the first operand is paired with
`f(valueA, valueB, dA, 0.0)`, an index present only in the second with
`f(valueA, valueB, 0.0, dB)`, and an index present in both with `f` applied to
both actual partials. -/
theorem calcDeriv_merge_spec (a b : ADVar) (f : ℚ → ℚ → ℚ → ℚ → ℚ)
    (hA : Ascending a.deriv) (hB : Ascending b.deriv) :
    Ascending (calcDeriv a b f) ∧
    (keys (calcDeriv a b f)).Nodup ∧
    (∀ i : ℕ, i ∈ keys (calcDeriv a b f) ↔ i ∈ keys a.deriv ∨ i ∈ keys b.deriv) ∧
    (∀ i : ℕ, i ∈ keys a.deriv → i ∉ keys b.deriv →
      lookupD (calcDeriv a b f) i = f a.val b.val (lookupD a.deriv i) 0) ∧
    (∀ i : ℕ, i ∉ keys a.deriv → i ∈ keys b.deriv →
      lookupD (calcDeriv a b f) i = f a.val b.val 0 (lookupD b.deriv i)) ∧
    (∀ i : ℕ, i ∈ keys a.deriv → i ∈ keys b.deriv →
      lookupD (calcDeriv a b f) i =
        f a.val b.val (lookupD a.deriv i) (lookupD b.deriv i)) := by
  have hasc : Ascending (calcDeriv a b f) :=
    ascending_mergeDeriv a.val b.val f a.deriv b.deriv hA hB
  refine ⟨hasc, List.Pairwise.imp (fun hlt => Nat.ne_of_lt hlt) hasc,
    fun i => mem_keys_mergeDeriv a.val b.val f a.deriv b.deriv i, ?_, ?_, ?_⟩
  · intro i hiA hiB
    rw [show (0 : ℚ) = lookupD b.deriv i from (lookupD_eq_zero hiB).symm]
    exact lookupD_mergeDeriv a.val b.val f a.deriv b.deriv hA hB i (Or.inl hiA)
  · intro i hiA hiB
    rw [show (0 : ℚ) = lookupD a.deriv i from (lookupD_eq_zero hiA).symm]
    exact lookupD_mergeDeriv a.val b.val f a.deriv b.deriv hA hB i (Or.inr hiB)
  · intro i hiA _
    exact lookupD_mergeDeriv a.val b.val f a.deriv b.deriv hA hB i (Or.inl hiA)

theorem calcDeriv_merge_spec_witness :
    Ascending (⟨2, [(0, 1), (2, 5)]⟩ : ADVar).deriv ∧
    Ascending (⟨3, [(1, 4)]⟩ : ADVar).deriv ∧
    Ascending (calcDeriv ⟨2, [(0, 1), (2, 5)]⟩ ⟨3, [(1, 4)]⟩ fun _ _ dx dy => dx + dy) :=
  ⟨by decide, by decide,
    (calcDeriv_merge_spec ⟨2, [(0, 1), (2, 5)]⟩ ⟨3, [(1, 4)]⟩ (fun _ _ dx dy => dx + dy)
      (by decide) (by decide)).1⟩

/-- C2 counterexample: the claim predicts that `log` of a quantity with value 0
and positive incoming derivative succeeds, but the code first evaluates
`math.log(x)`, whose domain error fires on the value 0 before the entry loop is
reached. -/
theorem log_zero_pos_deriv_errors :
    logAD mathLib0 ⟨0, [(0, 1)]⟩ = .error .valueError := by
  simp [logAD, mathLib0]

/-- C2 (amended): applied to a quantity `x`, `log` signals a domain error
exactly when `x.val <= 0`; the error is raised by the underlying `math.log`
evaluation, which depends only on the scalar value and happens before
entry-wise scaling, so the per-entry `ArithmeticError` branch never fires. -/
theorem logAD_error_iff (m : MathLib) (x : ADVar) :
    (∃ e : PyErr, logAD m x = .error e) ↔ x.val ≤ 0 := by
  have hd := m.log_domain x.val
  rcases hlog : m.log x.val with _ | v
  · rw [hlog] at hd
    simp only [Option.isSome_none, Bool.false_eq_true, false_iff, not_lt] at hd
    constructor
    · intro _
      exact hd
    · intro _
      refine ⟨.valueError, ?_⟩
      unfold logAD
      rw [hlog]
  · rw [hlog] at hd
    simp only [Option.isSome_some, true_iff] at hd
    constructor
    · rintro ⟨e, he⟩
      exfalso
      unfold logAD at he
      rw [hlog, logLoop_pos hd x.deriv] at he
      cases he
    · intro hle
      exact absurd hd (not_lt.mpr hle)

theorem logAD_error_iff_witness :
    (∃ e : PyErr, logAD mathLib0 ⟨-1, [(0, 1)]⟩ = .error e) ↔
      (⟨-1, [(0, 1)]⟩ : ADVar).val ≤ 0 :=
  logAD_error_iff mathLib0 ⟨-1, [(0, 1)]⟩

/-- C3: the scalar branch of the free function `cos` (line 354) returns
`math.sin(x)` instead of `math.cos(x)`, so on a math library whose sine and
cosine differ at 0 the returned value is the sine, contradicting the claim
(and the docstring of `cos` itself); the scalar branch of `sin` correctly
returns the sine. -/
theorem cos_scalar_returns_sin :
    cosScalar mathLib0 0 = mathLib0.sin 0 ∧
    sinScalar mathLib0 0 = mathLib0.sin 0 ∧
    mathLib0.sin 0 ≠ mathLib0.cos 0 :=
  ⟨rfl, rfl, by norm_num [mathLib0]⟩

/-- C4 counterexample: on the Taylor branch the code computes
`1 - y*y/6*(1 - 7*y*y/60)`, not the claimed `1 - y*y/6*(1 - 7*y*y/30)`;
at the scalar input 1/250 (clamped value in the Taylor band) the two differ. -/
theorem aux1_taylor_claim_counterexample :
    aux1Scalar mathLib0 (1/250) ≠
      1 - (1/250) * (1/250) / 6 * (1 - 7 * ((1/250) * (1/250)) / 30) := by
  norm_num [aux1Scalar, aux1Val, clampMisc, BP0_AUX1, BP1_AUX1, BP0_MISC]

/-- C4 (amended): for every input whose clamped value lies strictly between the
`aux1` value breakpoints, the value returned by `aux1` equals the truncated
Taylor series `1 - y*y/6*(1 - 7*y*y/60)` (with 60, as in the source, not 30);
in particular `aux1` of the scalar 0 evaluates to 1.0 via this branch. -/
theorem aux1_taylor_band (m : MathLib) (x : ℚ) (xq : ADVar)
    (h1 : BP0_AUX1 < clampMisc x) (h2 : clampMisc x ≤ BP1_AUX1)
    (h3 : BP0_AUX1 < clampMisc xq.val) (h4 : clampMisc xq.val ≤ BP1_AUX1) :
    aux1Scalar m x =
      1 - clampMisc x * clampMisc x / 6 * (1 - 7 * (clampMisc x * clampMisc x) / 60) ∧
    (aux1AD m xq).val =
      1 - clampMisc xq.val * clampMisc xq.val / 6 *
        (1 - 7 * (clampMisc xq.val * clampMisc xq.val) / 60) ∧
    aux1Scalar m 0 = 1 := by
  refine ⟨?_, ?_, ?_⟩
  · unfold aux1Scalar aux1Val
    rw [if_neg (not_le.mpr h1), if_pos h2]
    ring
  · show aux1Val m (clampMisc xq.val) = _
    unfold aux1Val
    rw [if_neg (not_le.mpr h3), if_pos h4]
    ring
  · norm_num [aux1Scalar, aux1Val, clampMisc, BP0_AUX1, BP1_AUX1, BP0_MISC]

theorem aux1_taylor_band_witness :
    aux1Scalar mathLib0 (1/250) =
      1 - clampMisc (1/250) * clampMisc (1/250) / 6 *
        (1 - 7 * (clampMisc (1/250) * clampMisc (1/250)) / 60) :=
  (aux1_taylor_band mathLib0 (1/250) ⟨1/250, []⟩
    (by norm_num [clampMisc, BP0_AUX1, BP0_MISC])
    (by norm_num [clampMisc, BP1_AUX1, BP0_MISC])
    (by norm_num [clampMisc, BP0_AUX1, BP0_MISC])
    (by norm_num [clampMisc, BP1_AUX1, BP0_MISC])).1

/-- C5: evaluating the code at a quantity with value 1 (clamped value in the
positive direct-ratio derivative band): every derivative entry is scaled by
`(z - y*cosh(y))/(z*z)` where `z` is the already-computed value `y/sinh(y)`
(first conjunct), which differs from the claimed direct derivative
`(sinh(y) - y*cosh(y))/sinh(y)^2` (second conjunct); the local
`tmp = math.sinh(y)` of that branch is dead. -/
theorem aux1_posband_uses_z :
    (aux1AD mathLib0 ⟨1, [(0, 1)]⟩).getDeriv 0 =
      (aux1Val mathLib0 (clampMisc 1) - 1 * mathLib0.cosh 1) /
        (aux1Val mathLib0 (clampMisc 1) * aux1Val mathLib0 (clampMisc 1)) ∧
    (aux1AD mathLib0 ⟨1, [(0, 1)]⟩).getDeriv 0 ≠
      (mathLib0.sinh 1 - 1 * mathLib0.cosh 1) / (mathLib0.sinh 1 * mathLib0.sinh 1) := by
  constructor
  · norm_num [aux1AD, aux1Val, aux1PD, clampMisc, ADVar.getDeriv, lookupD, mathLib0,
      BP0_AUX1, BP1_AUX1, BP0_MISC, BP0_DAUX1, BP1_DAUX1, BP2_DAUX1, BP3_DAUX1,
      BP4_DAUX1, BP5_DAUX1]
  · norm_num [aux1AD, aux1Val, aux1PD, clampMisc, ADVar.getDeriv, lookupD, mathLib0,
      BP0_AUX1, BP1_AUX1, BP0_MISC, BP0_DAUX1, BP1_DAUX1, BP2_DAUX1, BP3_DAUX1,
      BP4_DAUX1, BP5_DAUX1]

/-- C6: every quantity reachable through the public interface — seeded with an
optional index, produced by any arithmetic operator with quantity or scalar
operands on either side, by `abs`, negate, unary plus, `pow` with a scalar
exponent, or by `exp`, `log`, `sin`, `cos`, `aux1`, `aux2` — has a derivative
sequence strictly ascending by variable index with at most one entry per
index. -/
theorem reachable_deriv_ascending (x : ADVar) (h : Reachable x) :
    Ascending x.deriv ∧ (keys x.deriv).Nodup :=
  ⟨wf_of_reachable h,
    List.Pairwise.imp (fun hlt => Nat.ne_of_lt hlt) (wf_of_reachable h)⟩

theorem reachable_deriv_ascending_witness :
    Ascending ((ADVar.seed 2 0).mul (ADVar.seed 3 1)).deriv ∧
    (keys ((ADVar.seed 2 0).mul (ADVar.seed 3 1)).deriv).Nodup :=
  reachable_deriv_ascending _
    (Reachable.mul (Reachable.seed 2 0) (Reachable.seed 3 1))

/-- C7: for `a = seed(2.0, 0)` and `b = seed(3.0, 1)`, the product `c = a*b`
has `c.val = 6.0`, `c.getDeriv(0) = 3.0` and `c.getDeriv(1) = 2.0`; in
general the quantity-times-quantity rule merges with coefficient
`b*dA + a*dB` entrywise, and `getDeriv` of an absent index yields 0.0. -/
theorem mul_product_rule :
    (((ADVar.seed 2 0).mul (ADVar.seed 3 1)).val = 6 ∧
     ((ADVar.seed 2 0).mul (ADVar.seed 3 1)).getDeriv 0 = 3 ∧
     ((ADVar.seed 2 0).mul (ADVar.seed 3 1)).getDeriv 1 = 2) ∧
    (∀ a b : ADVar, Ascending a.deriv → Ascending b.deriv →
      (a.mul b).val = a.val * b.val ∧
      ∀ i : ℕ, (a.mul b).getDeriv i = b.val * a.getDeriv i + a.val * b.getDeriv i) ∧
    (∀ (x : ADVar) (i : ℕ), i ∉ keys x.deriv → x.getDeriv i = 0) := by
  refine ⟨⟨?_, ?_, ?_⟩, ?_, ?_⟩
  · norm_num [ADVar.seed, ADVar.mul]
  · norm_num [ADVar.seed, ADVar.mul, calcDeriv, ADVar.getDeriv, lookupD,
      mergeDeriv_cons_cons, mergeDeriv_cons_nil, mergeDeriv_nil_cons, mergeDeriv_nil_nil]
  · norm_num [ADVar.seed, ADVar.mul, calcDeriv, ADVar.getDeriv, lookupD,
      mergeDeriv_cons_cons, mergeDeriv_cons_nil, mergeDeriv_nil_cons, mergeDeriv_nil_nil]
  · intro a b hA hB
    refine ⟨rfl, fun i => ?_⟩
    exact lookupD_mergeDeriv_total a.val b.val
      (fun x y dx dy => y * dx + x * dy) a.deriv b.deriv hA hB (by ring) i
  · intro x i h
    exact lookupD_eq_zero h

theorem mul_product_rule_witness :
    ((ADVar.seed 2 0).mul (ADVar.seed 3 1)).val =
      (ADVar.seed 2 0).val * (ADVar.seed 3 1).val :=
  (mul_product_rule.2.1 (ADVar.seed 2 0) (ADVar.seed 3 1) (by decide) (by decide)).1

/-- C8: for every quantity `a`, `abs(a)` has value `|a.val|`; when
`a.val != 0` every derivative entry of the result is `sign(a.val)` times the
corresponding entry of `a`, and when `a.val == 0` each entry `(i, d)` is
independently replaced by `(i, sign(d)*d)`. -/
theorem abs_deriv_spec (a : ADVar) :
    a.absAD.val = |a.val| ∧
    a.absAD.deriv = if a.val = 0 then a.deriv.map fun p => (p.1, signQ p.2 * p.2)
                    else a.deriv.map fun p => (p.1, signQ a.val * p.2) := by
  refine ⟨rfl, ?_⟩
  by_cases h : a.val = 0
  · rw [if_pos h]
    have hs : signQ a.val = 0 := by simp [signQ, h]
    simp [ADVar.absAD, hs]
  · rw [if_neg h]
    have hs : signQ a.val ≠ 0 := by
      unfold signQ
      rcases lt_trichotomy a.val 0 with h1 | h1 | h1
      · rw [if_neg (not_lt.mpr h1.le), if_pos h1]
        norm_num
      · exact absurd h1 h
      · rw [if_pos h1]
        norm_num
    simp [ADVar.absAD, hs]

/-- C9: raising a quantity to a quantity-valued exponent signals an
unsupported-operation failure (`NotImplemented`, modelled as `none`) rather
than returning a quantity, while raising a quantity to a plain scalar exponent
`c` succeeds with value `pow(a.val, c)` and every derivative entry scaled by
`c * pow(a.val, c - 1)`. -/
theorem pow_spec :
    (∀ (m : MathLib) (a b : ADVar), a.powAD m (.quantity b) = none) ∧
    (∀ (m : MathLib) (a : ADVar) (c : ℚ), ∃ r : ADVar,
      a.powAD m (.scalar c) = some r ∧
      r.val = m.pow a.val c ∧
      r.deriv = a.deriv.map fun p => (p.1, c * m.pow a.val (c - 1) * p.2)) :=
  ⟨fun _ _ _ => rfl, fun m a c => ⟨_, rfl, rfl, rfl⟩⟩

/-- C10: the result of `derivApproxEq(a, b, tol)` does not depend on the
supplied tolerance argument; the threshold actually compared against, for the
value difference and for every entry of the difference derivative, is always
`max(|a.val|, |b.val|)`. -/
theorem derivApproxEq_tol_irrelevant :
    (∀ (a b : ADVar) (t1 t2 : ℚ), a.derivApproxEq b t1 = a.derivApproxEq b t2) ∧
    (∀ (a b : ADVar) (t : ℚ), a.derivApproxEq b t = true ↔
      (|a.val - b.val| < max |a.val| |b.val| ∧
       ∀ p ∈ (a.sub b).deriv, |p.2| < max |a.val| |b.val|)) := by
  constructor
  · intro a b t1 t2
    rfl
  · intro a b t
    unfold ADVar.derivApproxEq
    by_cases h : |a.val - b.val| < max |a.val| |b.val|
    · simp [h, List.all_eq_true]
    · simp [h]

theorem derivApproxEq_tol_irrelevant_witness :
    (ADVar.seed 1 0).derivApproxEq (ADVar.seed 2 1) (1/1000000) =
      (ADVar.seed 1 0).derivApproxEq (ADVar.seed 2 1) 5 :=
  derivApproxEq_tol_irrelevant.1 (ADVar.seed 1 0) (ADVar.seed 2 1) (1/1000000) 5
